import Mathlib

set_option maxHeartbeats 1000000

/-!
Shallow embedding of the core of `prusti-viper/src/encoder/mir_encoder.rs` and
`prusti-viper/src/encoder/snapshot/purifier.rs`.

Conventions of the embedding:
* `rustc` types (`ty::Ty`, `mir::Place`, `Span`, ...) are modelled as plain
  inductive types carrying exactly the information the encoder inspects.
* machine integers are `Int`; the literal bounds in `encode_bin_op_check`
  are transcribed from the source (`usize`/`isize` use the 64-bit values of
  the build target).
* fallible code returns `EncOutcome`: `ok` for `Ok`, `err` for a recoverable
  `Err(EncodingError)`, and `abort` for a Rust panic
  (`panic!` / `assert!` failure / `unwrap()` on `Err`/`None` / `unimplemented!` /
  `unreachable!`).
* external collaborators that live outside the given sources (the `Encoder`
  type-catalog callbacks, `vir` constructors and the snapshot helpers) are
  modelled as fields of a context structure `Ctx`, or as definitions whose doc
  comment starts with `Modelled from the spec:`.
-/

namespace Prusti

/-- Signed integer widths, model of `rustc_ast::ast::IntTy`. -/
inductive IntTy
  | isize | i8 | i16 | i32 | i64 | i128
deriving DecidableEq

/-- Unsigned integer widths, model of `rustc_ast::ast::UintTy`. -/
inductive UintTy
  | usize | u8 | u16 | u32 | u64 | u128
deriving DecidableEq

/-- Model of `ty::Ty` restricted to the kinds `mir_encoder.rs` inspects.
`adt` carries the ADT name, the `is_box` flag, the variant list
(variant name together with its fields as `(name, type)` pairs, with the
substitution `subst` already applied to the field types, since substitution is
performed by external `rustc` code) and the substitution list itself (used only
by `boxed_ty`). -/
inductive Ty
  | bool
  | char
  | int (w : IntTy)
  | uint (w : UintTy)
  | tuple (elems : List Ty)
  | adt (name : String) (isBox : Bool)
      (variants : List (String × List (String × Ty))) (substs : List Ty)
  | rawPtr (pointee : Ty) (mutbl : Bool)
  | ref (pointee : Ty)
  | closure (upvars : List Ty)

/-- Model of `rustc_span::Span`: an id plus the optional parent span
(`Span::parent`). -/
inductive Span
  | mk (id : Nat) (parent : Option Span)

/-- `Span::parent`. -/
def Span.parent : Span → Option Span
  | .mk _ p => p

/-- Model of `vir::Type` (the variants used by the two files). -/
inductive VirType
  | int
  | bool
  | typedRef (name : String)
  | domain (name : String)
deriving DecidableEq

/-- Model of `vir::LocalVar`. -/
structure LocalVar where
  name : String
  typ : VirType
deriving DecidableEq

/-- Model of `vir::Field`. -/
structure VirField where
  name : String
  typ : VirType
deriving DecidableEq

/-- Model of `vir::DomainFunc`. -/
structure DomainFunc where
  name : String
  formal_args : List LocalVar
  return_type : VirType
  unique : Bool
  domain_name : String
deriving DecidableEq

/-- Model of `vir::PermAmount`. -/
inductive PermAmount
  | read | write
deriving DecidableEq

/-- Model of `vir::Const` (the constants built by the encoder). -/
inductive Const
  | bool (b : Bool)
  | int (i : Int)
deriving DecidableEq

/-- The kinds of `vir` binary operators built by `encode_bin_op_expr` and
`encode_bin_op_check` (`vir::Expr::eq_cmp`, `lt_cmp`, `or`, ...). -/
inductive BinOpKind
  | eqCmp | neCmp | gtCmp | geCmp | ltCmp | leCmp
  | add | sub | rem | div | mul
  | and | or | xor
deriving DecidableEq

mutual
/-- Model of `vir::Expr`, restricted to the constructors produced or consumed
by `mir_encoder.rs` and `snapshot/purifier.rs`.  The last `Nat` of each
constructor is the `vir::Position` (`Position::default()` is `0`).
`mir::Local` prints (and is encoded) as `_<index>`, so locals are `Nat`s
elsewhere; here `localVar` holds a `vir::LocalVar`. -/
inductive Expr
  | const (c : Const) (p : Nat)
  | localVar (v : LocalVar) (p : Nat)
  | field (base : Expr) (f : VirField) (p : Nat)
  | addrOf (base : Expr) (t : VirType) (p : Nat)
  | variant (base : Expr) (f : VirField) (p : Nat)
  | unfolding (name : String) (args : ExprList) (body : Expr)
      (perm : PermAmount) (variantIdx : Option String) (p : Nat)
  | funcApp (name : String) (args : ExprList) (formalArgs : List LocalVar)
      (returnType : VirType) (p : Nat)
  | domainFuncApp (func : DomainFunc) (args : ExprList) (p : Nat)
  | predicateAccessPredicate (name : String) (arg : Expr)
      (perm : PermAmount) (p : Nat)
  | fieldAccessPredicate (base : Expr) (perm : PermAmount) (p : Nat)
  | binOp (k : BinOpKind) (l r : Expr) (p : Nat)

/-- Argument lists of `vir::Expr` applications (a `List Expr`, given as a
mutual inductive so that all recursions stay structural). -/
inductive ExprList
  | nil
  | cons (head : Expr) (tail : ExprList)
end

/-- Append on `ExprList` (model of `Vec::push`/concatenation). -/
def ExprList.append : ExprList → ExprList → ExprList
  | .nil, ys => ys
  | .cons x xs, ys => .cons x (xs.append ys)

/-- Modelled from the spec: `vir::Expr::get_type` (the `vir` crate is outside
`src/`): the static `vir` type attached to each expression node. -/
def Expr.getType : Expr → VirType
  | .const (.bool _) _ => .bool
  | .const (.int _) _ => .int
  | .localVar v _ => v.typ
  | .field _ f _ => f.typ
  | .addrOf _ t _ => t
  | .variant _ f _ => f.typ
  | .unfolding _ _ body _ _ _ => body.getType
  | .funcApp _ _ _ returnType _ => returnType
  | .domainFuncApp func _ _ => func.return_type
  | .predicateAccessPredicate _ _ _ _ => .bool
  | .fieldAccessPredicate _ _ _ => .bool
  | .binOp k _ _ _ =>
    match k with
    | .eqCmp | .neCmp | .gtCmp | .geCmp | .ltCmp | .leCmp
    | .and | .or | .xor => .bool
    | _ => .int

/-- Modelled from the spec: `vir::Expr::is_addr_of` (outside `src/`). -/
def Expr.is_addr_of : Expr → Bool
  | .addrOf _ _ _ => true
  | _ => false

/-- Modelled from the spec: `vir::Expr::get_parent` (outside `src/`): the
parent of a place-like expression. -/
def Expr.getParent : Expr → Option Expr
  | .field base _ _ => some base
  | .addrOf base _ _ => some base
  | .variant base _ _ => some base
  | _ => none

/-- Modelled from the spec: `vir::Expr::variant` (outside `src/`): wraps a
place in a variant accessor.  The `vir::Field` is named `enum_<variant>`
(the purifier strips exactly this 5-character `enum_` scheme via
`chars().skip(5)`), and the wrapped expression's `TypedRef` name is the base
name with the variant name appended (the purifier trims exactly that suffix
from the snapshot domain name). -/
def Expr.mkVariant (base : Expr) (vname : String) : Expr :=
  let t :=
    match base.getType with
    | .typedRef n => VirType.typedRef (n ++ vname)
    | t => t
  .variant base ⟨"enum_" ++ vname, t⟩ 0

/-- A recoverable encoding error: the message of the
`PositionlessEncodingError` plus the `Span` attached by `with_span`
(`none` models an error still positionless). -/
structure EncErr where
  msg : String
  span : Option Span

/-- Outcome of running encoder code: `Ok`, recoverable `Err`, or a Rust
panic/abort (`assert!`, `unwrap`, `unimplemented!`, `unreachable!`). -/
inductive EncOutcome (α : Type)
  | ok (a : α)
  | err (e : EncErr)
  | abort (msg : String)

/-- The external collaborators of the encoder: the `PlaceEncoder` trait's
local tables and the `Encoder`/TypeCatalog callbacks, which live outside the
given sources.  Each field models the correspondingly named method. -/
structure Ctx where
  /-- `get_local_ty` -/
  getLocalTy : Nat → Ty
  /-- `get_local_span` -/
  getLocalSpan : Nat → Span
  /-- `encoder().encode_type_predicate_use`: predicate name for a type, or a
  positionless error for an unsupported source type -/
  typePred : Ty → Except String String
  /-- `encoder().encode_raw_ref_field` -/
  rawRefField : String → Ty → VirField
  /-- `encoder().encode_struct_field` -/
  structField : String → Ty → VirField
  /-- `encoder().encode_dereference_field` -/
  derefField : Ty → VirField
  /-- `encoder().encode_type` -/
  encodeType : Ty → VirType
  /-- `encoder().encode_const_expr` -/
  constExpr : Ty → Int → Expr
  /-- `encoder().encode_value_expr` -/
  valueExpr : Expr → Ty → Expr

/-- Model of `mir::ProjectionElem` (the `Field` element carries the declared
field type, unused by `encode_projection` but used by `Place::ty`). -/
inductive ProjElem
  | field (idx : Nat) (ty : Ty)
  | deref
  | downcast (variantIdx : Nat)
  | index (lcl : Nat)

/-- Model of `mir::Place`: a local (named `localIdx` since `local` is a Lean
keyword) plus the projection chain. -/
structure Place where
  localIdx : Nat
  projection : List ProjElem

/-- `PlaceEncoder::encode_local`: variable named `_<local>` typed as a
reference to the type's predicate; recoverable error (with the local's span
attached by `with_span`) when no predicate is registered. -/
def encode_local (ctx : Ctx) (lcl : Nat) : EncOutcome LocalVar :=
  let varName := "_" ++ toString lcl
  match ctx.typePred (ctx.getLocalTy lcl) with
  | .ok typeName => .ok ⟨varName, .typedRef typeName⟩
  | .error m => .err ⟨m, some (ctx.getLocalSpan lcl)⟩

/-- `PlaceEncoder::can_be_dereferenced`. -/
def can_be_dereferenced : Ty → Bool
  | .rawPtr _ _ => true
  | .ref _ => true
  | .adt _ isBox _ _ => isBox
  | _ => false

/-- `PlaceEncoder::encode_deref`: dereference rule.  `assert!` on
`can_be_dereferenced` first; for raw pointers/references and boxes, an
address-of base cancels (`*&e ==> e` via `get_parent`), otherwise a synthetic
dereference field is produced. -/
def encode_deref (ctx : Ctx) (encodedBase : Expr) (baseTy : Ty) :
    EncOutcome (Expr × Ty × Option Nat) :=
  if !can_be_dereferenced baseTy then
    .abort "assertion failed: type can not be dereferenced"
  else
    match baseTy with
    | .rawPtr ty _ =>
      if encodedBase.is_addr_of then
        match encodedBase.getParent with
        | some parent => .ok (parent, ty, none)
        | none => .abort "unwrap on None"
      else
        match encodedBase with
        | .addrOf basePlace _ _ => .ok (basePlace, ty, none)
        | _ => .ok (.field encodedBase (ctx.derefField ty) 0, ty, none)
    | .ref ty =>
      if encodedBase.is_addr_of then
        match encodedBase.getParent with
        | some parent => .ok (parent, ty, none)
        | none => .abort "unwrap on None"
      else
        match encodedBase with
        | .addrOf basePlace _ _ => .ok (basePlace, ty, none)
        | _ => .ok (.field encodedBase (ctx.derefField ty) 0, ty, none)
    | .adt _ isBox _ substs =>
      if isBox then
        match substs.head? with
        | some fieldTy =>
          if encodedBase.is_addr_of then
            match encodedBase.getParent with
            | some parent => .ok (parent, fieldTy, none)
            | none => .abort "unwrap on None"
          else
            .ok (.field encodedBase (ctx.derefField fieldTy) 0, fieldTy, none)
        | none => .abort "boxed_ty on malformed box"
      else .abort "unimplemented deref"
    | _ => .abort "unimplemented deref"

/-- `PlaceEncoder::encode_projection`: resolves the `index`-th step (1-based)
of the place.  Transcribed control flow: the `assert!(index >= 1)`, the base
computed from `encoded_base_place` or (for `index == 1`) from
`encode_local(local).unwrap()` -- an `unwrap`, i.e. a panic on the recoverable
error -- or recursively, then the per-element dispatch. -/
def encode_projection (ctx : Ctx) :
    Nat → Place → Option (Expr × Ty × Option Nat) →
    EncOutcome (Expr × Ty × Option Nat)
  | 0, _, _ => .abort "assertion failed: index >= 1"
  | i + 1, place, encodedBasePlace =>
    let baseOutcome : EncOutcome (Expr × Ty × Option Nat) :=
      match encodedBasePlace with
      | some content => .ok content
      | none =>
        if i = 0 then
          match encode_local ctx place.localIdx with
          | .ok v => .ok (.localVar v 0, ctx.getLocalTy place.localIdx, none)
          | .err _ => .abort "unwrap on Err"
          | .abort m => .abort m
        else
          encode_projection ctx i place none
    match baseOutcome with
    | .err e => .err e
    | .abort m => .abort m
    | .ok (encodedBase, baseTy, optVariantIdx) =>
      match place.projection.get? i with
      | none => .abort "index out of bounds"
      | some elem =>
        match elem with
        | .field fieldIdx _ =>
          match baseTy with
          | .bool => .abort "type has no fields"
          | .int _ => .abort "type has no fields"
          | .uint _ => .abort "type has no fields"
          | .rawPtr _ _ => .abort "type has no fields"
          | .ref _ => .abort "type has no fields"
          | .tuple elems =>
            match elems.get? fieldIdx with
            | none => .abort "index out of bounds"
            | some fieldTy =>
              let encodedField :=
                ctx.rawRefField ("tuple_" ++ toString fieldIdx) fieldTy
              .ok (.field encodedBase encodedField 0, fieldTy, none)
          | .adt _ isBox variants _ =>
            if isBox then .abort "unimplemented projection base"
            else
              let numVariants := variants.length
              let viOutcome : EncOutcome Nat :=
                match optVariantIdx with
                | some vi => .ok vi
                | none =>
                  if numVariants = 1 then .ok 0
                  else .abort "assertion failed: num_variants == 1"
              match viOutcome with
              | .err e => .err e
              | .abort m => .abort m
              | .ok variantIdx =>
                match variants.get? variantIdx with
                | none => .abort "index out of bounds"
                | some variantDef =>
                  let encodedVariant :=
                    if numVariants ≠ 1 then
                      Expr.mkVariant encodedBase variantDef.1
                    else encodedBase
                  match variantDef.2.get? fieldIdx with
                  | none => .abort "index out of bounds"
                  | some fieldInfo =>
                    let encodedField := ctx.structField fieldInfo.1 fieldInfo.2
                    .ok (.field encodedVariant encodedField 0, fieldInfo.2, none)
          | .closure upvars =>
            match upvars.get? fieldIdx with
            | none => .abort "unwrap on None"
            | some fieldTy =>
              let encodedField :=
                ctx.rawRefField ("closure_" ++ toString fieldIdx) fieldTy
              let encodedProjection := Expr.field encodedBase encodedField 0
              let encodedFieldType := ctx.encodeType fieldTy
              if encodedProjection.getType = encodedFieldType then
                .ok (encodedProjection, fieldTy, none)
              else .abort "assertion failed: field types equal"
          | .char => .abort "unimplemented projection base"
        | .deref => encode_deref ctx encodedBase baseTy
        | .downcast variantIdx => .ok (encodedBase, baseTy, some variantIdx)
        | .index _ => .abort "unimplemented projection element"

/-- `PlaceEncoder::encode_place`: empty projection chain goes through
`encode_local` (propagating its recoverable error with `?`), otherwise
`encode_projection` over the full chain. -/
def encode_place (ctx : Ctx) (place : Place) :
    EncOutcome (Expr × Ty × Option Nat) :=
  if place.projection.isEmpty then
    match encode_local ctx place.localIdx with
    | .ok v => .ok (.localVar v 0, ctx.getLocalTy place.localIdx, none)
    | .err e => .err e
    | .abort m => .abort m
  else
    encode_projection ctx place.projection.length place none

/-! ## Operators, overflow checks, casts (`MirEncoder`) -/

/-- Model of `mir::BinOp`. -/
inductive MirBinOp
  | add | sub | mul | div | rem
  | bitXor | bitAnd | bitOr | shl | shr
  | eq | lt | le | ne | ge | gt | offset
deriving DecidableEq

/-- Model of `mir::BinOp::is_checkable` (external `rustc` code):
`Add | Sub | Mul | Shl | Shr`. -/
def MirBinOp.is_checkable : MirBinOp → Bool
  | .add | .sub | .mul | .shl | .shr => true
  | _ => false

/-- `vir::Expr::or` (default position). -/
def exprOr (a b : Expr) : Expr := .binOp .or a b 0

/-- `vir::Expr::lt_cmp` (default position). -/
def exprLtCmp (a b : Expr) : Expr := .binOp .ltCmp a b 0

/-- `vir::Expr::gt_cmp` (default position). -/
def exprGtCmp (a b : Expr) : Expr := .binOp .gtCmp a b 0

/-- `<integer>.into()`: an integer constant expression. -/
def intConst (i : Int) : Expr := .const (.int i) 0

/-- `<bool>.into()`: a boolean constant expression. -/
def boolConst (b : Bool) : Expr := .const (.bool b) 0

/-- `MirEncoder::encode_bin_op_expr`: total for comparisons and arithmetic,
boolean-only for the bitwise operators, `unimplemented!` otherwise. -/
def encode_bin_op_expr (op : MirBinOp) (left right : Expr) (ty : Ty) :
    EncOutcome Expr :=
  let isBool : Bool := match ty with | .bool => true | _ => false
  match op with
  | .eq => .ok (.binOp .eqCmp left right 0)
  | .ne => .ok (.binOp .neCmp left right 0)
  | .gt => .ok (.binOp .gtCmp left right 0)
  | .ge => .ok (.binOp .geCmp left right 0)
  | .lt => .ok (.binOp .ltCmp left right 0)
  | .le => .ok (.binOp .leCmp left right 0)
  | .add => .ok (.binOp .add left right 0)
  | .sub => .ok (.binOp .sub left right 0)
  | .rem => .ok (.binOp .rem left right 0)
  | .div => .ok (.binOp .div left right 0)
  | .mul => .ok (.binOp .mul left right 0)
  | .bitAnd => if isBool then .ok (.binOp .and left right 0)
               else .abort "unimplemented bin op"
  | .bitOr => if isBool then .ok (.binOp .or left right 0)
              else .abort "unimplemented bin op"
  | .bitXor => if isBool then .ok (.binOp .xor left right 0)
               else .abort "unimplemented bin op"
  | _ => .abort "unimplemented bin op"

/-- `MirEncoder::encode_bin_op_check`.  `checkBinaryOperations` models the
global `config::check_binary_operations()` switch.  Note the transcription is
faithful to the source: `encode_bin_op_expr` is evaluated *before* the match
on `op` (so `Shl`/`Shr` panic there when checks are enabled), and the `I16`
arm's upper bound is `std::i16::MIN` exactly as on line 509 of
`mir_encoder.rs`. -/
def encode_bin_op_check (checkBinaryOperations : Bool) (op : MirBinOp)
    (left right : Expr) (ty : Ty) : EncOutcome Expr :=
  if !op.is_checkable || !checkBinaryOperations then
    .ok (boolConst false)
  else
    match encode_bin_op_expr op left right ty with
    | .err e => .err e
    | .abort m => .abort m
    | .ok result =>
      match op with
      | .add | .mul | .sub =>
        match ty with
        -- Unsigned
        | .uint .u8 =>
          .ok (exprOr (exprLtCmp result (intConst 0))
                      (exprGtCmp result (intConst 255)))
        | .uint .u16 =>
          .ok (exprOr (exprLtCmp result (intConst 0))
                      (exprGtCmp result (intConst 65535)))
        | .uint .u32 =>
          .ok (exprOr (exprLtCmp result (intConst 0))
                      (exprGtCmp result (intConst 4294967295)))
        | .uint .u64 =>
          .ok (exprOr (exprLtCmp result (intConst 0))
                      (exprGtCmp result (intConst 18446744073709551615)))
        | .uint .u128 =>
          .ok (exprOr (exprLtCmp result (intConst 0))
                      (exprGtCmp result
                        (intConst 340282366920938463463374607431768211455)))
        | .uint .usize =>
          .ok (exprOr (exprLtCmp result (intConst 0))
                      (exprGtCmp result (intConst 18446744073709551615)))
        -- Signed
        | .int .i8 =>
          .ok (exprOr (exprLtCmp result (intConst (-128)))
                      (exprGtCmp result (intConst 127)))
        | .int .i16 =>
          .ok (exprOr (exprLtCmp result (intConst (-32768)))
                      (exprGtCmp result (intConst (-32768))))
        | .int .i32 =>
          .ok (exprOr (exprLtCmp result (intConst (-2147483648)))
                      (exprGtCmp result (intConst 2147483647)))
        | .int .i64 =>
          .ok (exprOr (exprLtCmp result (intConst (-9223372036854775808)))
                      (exprGtCmp result (intConst 9223372036854775807)))
        | .int .i128 =>
          .ok (exprOr
                (exprLtCmp result
                  (intConst (-170141183460469231731687303715884105728)))
                (exprGtCmp result
                  (intConst 170141183460469231731687303715884105727)))
        | .int .isize =>
          .ok (exprOr (exprLtCmp result (intConst (-9223372036854775808)))
                      (exprGtCmp result (intConst 9223372036854775807)))
        | _ => .ok (boolConst false)
      | .shl | .shr => .ok (boolConst false)
      | _ => .abort "unreachable"

/-- Does the type have one of the twelve integer arms of
`encode_bin_op_check`? -/
def isCheckedIntTy : Ty → Bool
  | .int _ => true
  | .uint _ => true
  | _ => false

/-- Model of `mir::Operand` (`Constant` holds the literal's type and value;
`Copy`/`Move` hold the place read). -/
inductive Operand
  | constant (ty : Ty) (val : Int)
  | copy (place : Place)
  | move (place : Place)

/-- Modelled from the spec: the type of one projection step, as computed by
`rustc`'s `Place::ty` (external): `Field` carries its declared type, `Deref`
uses the pointee/boxed type, `Downcast` keeps the type. -/
def projElemTy (t : Ty) : ProjElem → Option Ty
  | .field _ fty => some fty
  | .deref =>
    match t with
    | .rawPtr pointee _ => some pointee
    | .ref pointee => some pointee
    | .adt _ isBox _ substs => if isBox then substs.head? else none
    | _ => none
  | .downcast _ => some t
  | .index _ => none

/-- Modelled from the spec: `mir::Place::ty` (external `rustc` code): the
local's declared type pushed through the projection chain. -/
def placeTy (ctx : Ctx) (place : Place) : Option Ty :=
  place.projection.foldl (fun acc e => acc.bind (fun t => projElemTy t e))
    (some (ctx.getLocalTy place.localIdx))

/-- `MirEncoder::get_operand_ty` (delegates to `Operand::ty`, external). -/
def get_operand_ty (ctx : Ctx) : Operand → Option Ty
  | .constant ty _ => some ty
  | .copy place => placeTy ctx place
  | .move place => placeTy ctx place

/-- `MirEncoder::eval_place`: `encode_place` then unwrap to the carried value
via `encode_value_expr`. -/
def eval_place (ctx : Ctx) (place : Place) : EncOutcome Expr :=
  match encode_place ctx place with
  | .ok (encodedPlace, placeType, _) => .ok (ctx.valueExpr encodedPlace placeType)
  | .err e => .err e
  | .abort m => .abort m

/-- `MirEncoder::encode_operand_expr`: constant operands via
`encode_const_expr`, place reads via `eval_place`. -/
def encode_operand_expr (ctx : Ctx) : Operand → EncOutcome Expr
  | .constant ty val => .ok (ctx.constExpr ty val)
  | .copy place => eval_place ctx place
  | .move place => eval_place ctx place

/-- `MirEncoder::encode_cast_expr`: the explicit `(src, dst)` whitelist of the
source; a whitelisted pair re-encodes the operand unchanged, anything else is
`unimplemented!`. -/
def encode_cast_expr (ctx : Ctx) (operand : Operand) (dstTy : Ty) :
    EncOutcome Expr :=
  match get_operand_ty ctx operand with
  | none => .abort "operand type"
  | some srcTy =>
    match srcTy, dstTy with
    | .int .i8, .int .i8
    | .int .i8, .int .i16
    | .int .i8, .int .i32
    | .int .i8, .int .i64
    | .int .i8, .int .i128
    | .int .i16, .int .i16
    | .int .i16, .int .i32
    | .int .i16, .int .i64
    | .int .i16, .int .i128
    | .int .i32, .int .i32
    | .int .i32, .int .i64
    | .int .i32, .int .i128
    | .int .i64, .int .i64
    | .int .i64, .int .i128
    | .int .i128, .int .i128
    | .int .isize, .int .isize
    | .char, .char
    | .char, .uint .u8
    | .char, .uint .u16
    | .char, .uint .u32
    | .char, .uint .u64
    | .char, .uint .u128
    | .uint .u8, .char
    | .uint .u8, .uint .u8
    | .uint .u8, .uint .u16
    | .uint .u8, .uint .u32
    | .uint .u8, .uint .u64
    | .uint .u8, .uint .u128
    | .uint .u16, .uint .u16
    | .uint .u16, .uint .u32
    | .uint .u16, .uint .u64
    | .uint .u16, .uint .u128
    | .uint .u32, .uint .u32
    | .uint .u32, .uint .u64
    | .uint .u32, .uint .u128
    | .uint .u64, .uint .u64
    | .uint .u64, .uint .u128
    | .uint .u128, .uint .u128
    | .uint .usize, .uint .usize => encode_operand_expr ctx operand
    | _, _ => .abort "unimplemented cast"

/-! ## Spans and panic causes (`MirEncoder`) -/

/-- The loop of `MirEncoder::get_root_span`, with `fuel` bounding the number
of iterations (`none` means the `while` loop was still running after `fuel`
iterations).  Faithful to the source: the guard re-reads `span.parent()` --
the immutable parameter -- on every iteration, while only `res` is
reassigned. -/
def get_root_span_loop (span : Span) : Nat → Span → Option Span
  | 0, _ => none
  | fuel + 1, res =>
    match span.parent with
    | some parentSpan => get_root_span_loop span fuel parentSpan
    | none => some res

/-- `MirEncoder::get_root_span` under a fuel bound. -/
def get_root_span (fuel : Nat) (span : Span) : Option Span :=
  get_root_span_loop span fuel span

/-- Model of `PanicCause` (`encoder/errors`). -/
inductive PanicCause
  | generic | panic | assert | debugAssert | unreachable | unimplemented
deriving DecidableEq

/-- `MirEncoder::encode_panic_cause`.  The input models
`span.macro_backtrace()` already mapped through `macro_def_id` /
`def_path_str` (external `rustc` code): one optional macro path per backtrace
frame.  The function takes the first 3 frames, drops frames without a
`macro_def_id` (`flatten`), and matches the resulting name list.
The Rust slice-pattern match (first-match-wins over the patterns
`["std::panic", "std::assert", "std::debug_assert", ..]`,
`["std::panic", "std::assert", ..]`, `["std::panic", "std::unreachable", ..]`,
`["std::panic", "std::unimplemented", ..]`, `["std::panic", ..]`, `_`) is
transcribed as the equivalent nested conditionals. -/
def encode_panic_cause (macroBacktrace : List (Option String)) : PanicCause :=
  let macroNames : List String := (macroBacktrace.take 3).filterMap id
  match macroNames with
  | [] => .generic
  | a :: rest =>
    if a = "std::panic" then
      match rest with
      | [] => .panic
      | b :: rest2 =>
        if b = "std::assert" then
          match rest2 with
          | [] => .assert
          | c :: _ => if c = "std::debug_assert" then .debugAssert else .assert
        else if b = "std::unreachable" then .unreachable
        else if b = "std::unimplemented" then .unimplemented
        else .panic
    else .generic

/-! ## The expression purifier (`snapshot/purifier.rs`) -/

/-- Modelled from the spec: `snapshot::translate_type` (outside `src/`):
a `vir` type re-expressed in purified (snapshot-domain) form.  A `TypedRef`
becomes the snapshot domain of that type name; the `Snap$` prefix convention
is the one used on line 36 of `purifier.rs`.  Already-pure types are left
unchanged. -/
def translate_type : VirType → VirType
  | .typedRef n => .domain ("Snap$" ++ n)
  | t => t

/-- Modelled from the spec: `snapshot::encode_nat_argument` (outside `src/`):
the conventional trailing "fuel" argument appended to every axiomatized pure
function application. -/
def encode_nat_argument : LocalVar := ⟨"fuel$n", .domain "Nat"⟩

/-- Modelled from the spec: `snapshot::encode_axiomatized_function` (outside
`src/`): the memoized axiomatized pure counterpart of a named function,
looked up deterministically from `(name, formal signature)`. -/
def encode_axiomatized_function (name : String) (formalArgs : List LocalVar)
    (returnType : VirType) : DomainFunc :=
  { name := "purified$" ++ name
    formal_args :=
      (formalArgs.map fun v => ⟨v.name, translate_type v.typ⟩)
        ++ [encode_nat_argument]
    return_type := translate_type returnType
    unique := false
    domain_name := "UserFunctionDomain" }

/-- Modelled from the spec: `snapshot::encode_field_domain_func` (outside
`src/`): the type-directed field accessor domain function. -/
def encode_field_domain_func (fieldType : VirType) (fieldName : String)
    (domainName : String) (variantName : Option String) : DomainFunc :=
  { name := "field$" ++ fieldName ++
      (match variantName with | some v => "$" ++ v | none => "")
    formal_args := [⟨"self", .domain domainName⟩]
    return_type := fieldType
    unique := false
    domain_name := domainName }

/-- The state of `ExprPurifier`: the enclosing pure function's self-reference
substituted for the `__result` placeholder.  (The snapshot map only feeds the
externally modelled helpers above, so it is not part of the state.) -/
structure PState where
  selfFunction : Expr

mutual
/-- The purifier: `ExprFolder for ExprPurifier` from `purifier.rs`, with the
default `vir::ExprFolder` methods (outside `src/`, modelled from the spec)
recursing structurally into every non-overridden node.  `none` models a Rust
panic (`unreachable!()` on a field access whose receiver type is not a
`TypedRef`, and the `assert_eq!` of the `snap$` case).  The `snap$` case is
transcribed as reading the purified sole argument off the purified argument
list: equivalent to the source's `assert_eq!(args.len(), 1)` followed by
folding `args.pop().unwrap()`, since a list purifies to a singleton exactly
when it is a singleton whose element purifies. -/
def purify (S : PState) : Expr → Option Expr
  | .const c p => some (.const c p)
  | .localVar v p =>
    if v.name = "__result" then some S.selfFunction
    else some (.localVar ⟨v.name, translate_type v.typ⟩ p)
  | .field receiver f p =>
    match receiver.getType with
    | .typedRef receiverName =>
      let dom0 := "Snap$" ++ receiverName
      let dv : String × Option String :=
        match receiver with
        | .variant _ varField _ =>
          let vname := varField.name.drop 5
          (dom0.take (dom0.length - vname.length), some vname)
        | _ => (dom0, none)
      match purify S receiver with
      | some inner =>
        if f.name = "val_bool" then some inner
        else if f.name = "val_int" then some inner
        else if f.name = "val_ref" then some inner
        else if f.name = "discriminant" then
          some (.domainFuncApp
            { name := "variant$"
              formal_args := [⟨"self", .domain dv.1⟩]
              return_type := .int
              unique := false
              domain_name := dv.1 }
            (.cons inner .nil) p)
        else
          some (.domainFuncApp
            (encode_field_domain_func (translate_type f.typ) (f.name.drop 2)
              dv.1 dv.2)
            (.cons inner .nil) p)
      | none => none
    | _ => none
  | .addrOf base t p =>
    match purify S base with
    | some b => some (.addrOf b t p)
    | none => none
  | .variant base _ _ => purify S base
  | .unfolding _ _ body _ _ _ => purify S body
  | .funcApp name args formalArgs returnType p =>
    if name = "builtin$unreach_int" then
      match purifyList S args with
      | some args2 => some (.funcApp name args2 formalArgs returnType p)
      | none => none
    else if name = "snap$" then
      match purifyList S args with
      | some (.cons a2 .nil) => some a2
      | _ => none
    else
      match purifyList S args with
      | some args2 =>
        some (.domainFuncApp
          (encode_axiomatized_function name formalArgs returnType)
          (args2.append (.cons (.localVar encode_nat_argument 0) .nil)) p)
      | none => none
  | .domainFuncApp func args p =>
    match purifyList S args with
    | some args2 => some (.domainFuncApp func args2 p)
    | none => none
  | .predicateAccessPredicate _ _ _ _ => some (.const (.bool true) 0)
  | .fieldAccessPredicate _ _ _ => some (.const (.bool true) 0)
  | .binOp k l r p =>
    match purify S l, purify S r with
    | some l2, some r2 => some (.binOp k l2 r2 p)
    | _, _ => none

/-- Elementwise purification of an argument list (the `args.map(fold)` of the
default folder / the overridden `fold_func_app`). -/
def purifyList (S : PState) : ExprList → Option ExprList
  | .nil => some .nil
  | .cons a as =>
    match purify S a, purifyList S as with
    | some a2, some as2 => some (.cons a2 as2)
    | _, _ => none
end

/-! ## Concrete contexts used in witnesses and counterexamples -/

/-- A concrete encoding context in which every local has type `bool` and the
type catalog has a predicate for every type. -/
def ctx0 : Ctx where
  getLocalTy := fun _ => Ty.bool
  getLocalSpan := fun _ => Span.mk 0 none
  typePred := fun _ => Except.ok "bool"
  rawRefField := fun n _ => ⟨n, .typedRef "ref$raw"⟩
  structField := fun n _ => ⟨n, .typedRef "ref$struct"⟩
  derefField := fun _ => ⟨"val_ref", .typedRef "ref$target"⟩
  encodeType := fun _ => .typedRef "ref$raw"
  constExpr := fun _ i => Expr.const (.int i) 0
  valueExpr := fun e _ => Expr.field e ⟨"val_int", .int⟩ 0

/-- A concrete encoding context whose type catalog has *no* registered
predicate: `encode_type_predicate_use` always fails with a recoverable,
positionless error.  Local `1` has type `&bool` and span id `7`. -/
def ctxNoPred : Ctx :=
  { ctx0 with
    typePred := fun _ => Except.error "unsupported type"
    getLocalTy := fun _ => Ty.ref Ty.bool
    getLocalSpan := fun _ => Span.mk 7 none }

/-! ## Theorems for the claims -/

/-- Claim C1 evaluated at its failing input.  For `op = Add` on type `i16`
the source (mir_encoder.rs line 503-510) emits
`result < i16::MIN || result > i16::MIN`: the upper bound is the literal
`-32768` (`std::i16::MIN`), not the exact maximum `32767` required by the
claim, so the generated check can never detect positive overflow of `i16`. -/
theorem C1_i16_overflow_check_wrong_upper_bound :
    encode_bin_op_check true .add (intConst 200) (intConst 100) (Ty.int .i16)
      = .ok (exprOr
          (exprLtCmp (.binOp .add (intConst 200) (intConst 100) 0)
            (intConst (-32768)))
          (exprGtCmp (.binOp .add (intConst 200) (intConst 100) 0)
            (intConst (-32768)))) := rfl

/-- Claim C2 evaluated at its failing input.  For the place `_1` with the
non-empty projection `[Deref]`, in a context where the base local's type has
no registered type predicate, `encode_local` produces the recoverable
position-carrying error (second conjunct), but `encode_place` -- through
`encode_projection`, which calls `encode_local(local).unwrap()` at index 1 --
panics instead of surfacing it (first conjunct). -/
theorem C2_missing_predicate_aborts_instead_of_err :
    encode_place ctxNoPred ⟨1, [ProjElem.deref]⟩ = .abort "unwrap on Err" ∧
    encode_local ctxNoPred 1
      = .err ⟨"unsupported type", some (Span.mk 7 none)⟩ :=
  ⟨rfl, rfl⟩

/-- Claim C3: whenever the input span has a parent, the `while` loop of
`get_root_span` never terminates -- its guard re-reads `span.parent()` (the
immutable parameter) on every iteration -- so no amount of fuel produces a
result. -/
theorem C3_get_root_span_diverges_with_parent :
    ∀ (fuel : Nat) (s : Span), s.parent.isSome = true →
      get_root_span fuel s = none := by
  intro fuel s h
  obtain ⟨ps, hps⟩ := Option.isSome_iff_exists.mp h
  have aux : ∀ (f : Nat) (res : Span), get_root_span_loop s f res = none := by
    intro f
    induction f with
    | zero => intro res; rfl
    | succ f ih =>
      intro res
      simp only [get_root_span_loop, hps]
      exact ih ps
  exact aux fuel s

/-- Witness for C3: a concrete two-level span chain, fuel 100. -/
theorem C3_witness :
    get_root_span 100 (Span.mk 1 (some (Span.mk 0 none))) = none :=
  C3_get_root_span_diverges_with_parent 100 (Span.mk 1 (some (Span.mk 0 none)))
    rfl

/-- Claim C5: encoding a `Deref` step on a base expression of the syntactic
shape address-of `e`, for each of the three dereferenceable static types
(raw pointer, reference, box), returns the inner expression `e` itself --
cancellation, never a field access. -/
theorem C5_deref_cancellation :
    ∀ (ctx : Ctx) (e : Expr) (t : VirType) (p : Nat),
      (∀ (pointee : Ty) (m : Bool),
        encode_deref ctx (.addrOf e t p) (.rawPtr pointee m)
          = .ok (e, pointee, none)) ∧
      (∀ pointee : Ty,
        encode_deref ctx (.addrOf e t p) (.ref pointee)
          = .ok (e, pointee, none)) ∧
      (∀ (nm : String) (variants : List (String × List (String × Ty)))
          (b : Ty) (rest : List Ty),
        encode_deref ctx (.addrOf e t p) (.adt nm true variants (b :: rest))
          = .ok (e, b, none)) := by
  intro ctx e t p
  exact ⟨fun _ _ => rfl, fun _ => rfl, fun _ _ _ _ => rfl⟩

/-- Claim C6: `encode_place` on a place with an empty projection chain
returns exactly the triple (encoded local, the local's static type, no
variant index). -/
theorem C6_empty_projection_is_encode_local :
    ∀ (ctx : Ctx) (lcl : Nat) (v : LocalVar),
      encode_local ctx lcl = .ok v →
      encode_place ctx ⟨lcl, []⟩
        = .ok (.localVar v 0, ctx.getLocalTy lcl, none) := by
  intro ctx lcl v h
  simp [encode_place, h]

/-- Witness for C6: local `1` of type `bool` in `ctx0`. -/
theorem C6_witness :
    encode_place ctx0 ⟨1, []⟩
      = .ok (.localVar ⟨"_1", .typedRef "bool"⟩ 0, Ty.bool, none) :=
  C6_empty_projection_is_encode_local ctx0 1 ⟨"_1", .typedRef "bool"⟩ rfl

/-- Claim C8: purifying a resource-permission (predicate-access) or
field-permission (field-access) predicate node yields the constant `true`,
for every purifier state, receiver, permission amount and position. -/
theorem C8_permission_predicates_purify_to_true :
    (∀ (S : PState) (name : String) (arg : Expr) (perm : PermAmount)
        (pos : Nat),
      purify S (.predicateAccessPredicate name arg perm pos)
        = some (.const (.bool true) 0)) ∧
    (∀ (S : PState) (receiver : Expr) (perm : PermAmount) (pos : Nat),
      purify S (.fieldAccessPredicate receiver perm pos)
        = some (.const (.bool true) 0)) :=
  ⟨fun _ _ _ _ _ => rfl, fun _ _ _ _ => rfl⟩

/-- Counterexample for claim C7: with overflow checks enabled, a shift
operator does *not* yield the constant false -- `encode_bin_op_check`
evaluates `encode_bin_op_expr` before matching on the operator, and that
call is `unimplemented!` for `Shl`, so the encoder panics before ever
reaching the `Shl | Shr => false` arm. -/
theorem C7_shl_enabled_is_not_false :
    ¬ (encode_bin_op_check true .shl (intConst 1) (intConst 2) (Ty.uint .u8)
        = .ok (boolConst false)) :=
  fun h => EncOutcome.noConfusion h

/-- Claim C7 as amended: the constant false is returned (1) for every
non-checkable operator, (2) whenever the global overflow-check switch is
disabled, and (3) for Add/Sub/Mul on any type outside the twelve supported
integer arms; but (4) for the shift operators with checks enabled the call
aborts as unimplemented (inside `encode_bin_op_expr`) instead of returning
false. -/
theorem C7_amended_check_behaviour :
    (∀ (op : MirBinOp) (l r : Expr) (ty : Ty) (cfg : Bool),
        op.is_checkable = false →
        encode_bin_op_check cfg op l r ty = .ok (boolConst false)) ∧
    (∀ (op : MirBinOp) (l r : Expr) (ty : Ty),
        encode_bin_op_check false op l r ty = .ok (boolConst false)) ∧
    (∀ (op : MirBinOp) (l r : Expr) (ty : Ty),
        (op = .add ∨ op = .sub ∨ op = .mul) → isCheckedIntTy ty = false →
        encode_bin_op_check true op l r ty = .ok (boolConst false)) ∧
    (∀ (op : MirBinOp) (l r : Expr) (ty : Ty),
        (op = .shl ∨ op = .shr) →
        encode_bin_op_check true op l r ty
          = .abort "unimplemented bin op") := by
  refine ⟨?_, ?_, ?_, ?_⟩
  · intro op l r ty cfg h
    simp [encode_bin_op_check, h]
  · intro op l r ty
    simp [encode_bin_op_check]
  · intro op l r ty hop hty
    rcases hop with rfl | rfl | rfl <;>
      cases ty <;> simp_all [encode_bin_op_check, encode_bin_op_expr,
        isCheckedIntTy]
  · intro op l r ty hop
    rcases hop with rfl | rfl <;> rfl

/-- Witness for the amended C7: a non-checkable operator (`Div`), the
disabled-switch case, `Add` on `bool`, and `Shl` with checks enabled, all at
concrete operands. -/
theorem C7_witness :
    encode_bin_op_check true .div (intConst 1) (intConst 2) Ty.bool
      = .ok (boolConst false) ∧
    encode_bin_op_check false .add (intConst 1) (intConst 2) (Ty.uint .u8)
      = .ok (boolConst false) ∧
    encode_bin_op_check true .add (intConst 1) (intConst 2) Ty.bool
      = .ok (boolConst false) ∧
    encode_bin_op_check true .shl (intConst 1) (intConst 2) (Ty.uint .u8)
      = .abort "unimplemented bin op" :=
  ⟨C7_amended_check_behaviour.1 .div (intConst 1) (intConst 2) Ty.bool true
      rfl,
   C7_amended_check_behaviour.2.1 .add (intConst 1) (intConst 2) (Ty.uint .u8),
   C7_amended_check_behaviour.2.2.1 .add (intConst 1) (intConst 2) Ty.bool
      (Or.inl rfl) rfl,
   C7_amended_check_behaviour.2.2.2 .shl (intConst 1) (intConst 2)
      (Ty.uint .u8) (Or.inl rfl)⟩

/-- Claim C9: a cast of an 8-bit-unsigned operand to 32-bit-unsigned succeeds
and returns exactly the operand's encoded value expression (no
transformation); a cast of a 32-bit-signed operand to 8-bit-unsigned aborts
as unimplemented. -/
theorem C9_cast_whitelist :
    (∀ (ctx : Ctx) (operand : Operand),
        get_operand_ty ctx operand = some (Ty.uint .u8) →
        encode_cast_expr ctx operand (Ty.uint .u32)
          = encode_operand_expr ctx operand) ∧
    (∀ (ctx : Ctx) (operand : Operand),
        get_operand_ty ctx operand = some (Ty.int .i32) →
        encode_cast_expr ctx operand (Ty.uint .u8)
          = .abort "unimplemented cast") := by
  constructor
  · intro ctx operand h
    simp [encode_cast_expr, h]
  · intro ctx operand h
    simp [encode_cast_expr, h]

/-- Witness for C9: constant operands of type `u8` and `i32` in `ctx0`. -/
theorem C9_witness :
    encode_cast_expr ctx0 (Operand.constant (Ty.uint .u8) 5) (Ty.uint .u32)
      = encode_operand_expr ctx0 (Operand.constant (Ty.uint .u8) 5) ∧
    encode_cast_expr ctx0 (Operand.constant (Ty.int .i32) 5) (Ty.uint .u8)
      = .abort "unimplemented cast" :=
  ⟨C9_cast_whitelist.1 ctx0 (Operand.constant (Ty.uint .u8) 5) rfl,
   C9_cast_whitelist.2 ctx0 (Operand.constant (Ty.int .i32) 5) rfl⟩

/-- Claim C10: panic-cause classification from the (up to three) nearest
macro-expansion ancestors: assert-macro ancestry yields `Assert` (any third
ancestor other than the debug-assert macro, or none at all),
debug-assert-then-assert ancestry yields `DebugAssert`, and an ancestry whose
first recorded macro is not the panic macro is unrecognized and yields
`Generic`. -/
theorem C10_panic_cause_classification :
    (∀ rest : List (Option String),
        encode_panic_cause
          (some "std::panic" :: some "std::assert"
            :: some "std::debug_assert" :: rest)
          = PanicCause.debugAssert) ∧
    (∀ t : String, t ≠ "std::debug_assert" →
        encode_panic_cause [some "std::panic", some "std::assert", some t]
          = PanicCause.assert) ∧
    (encode_panic_cause [some "std::panic", some "std::assert"]
        = PanicCause.assert) ∧
    (∀ bt : List (Option String),
        ((bt.take 3).filterMap id).head? ≠ some "std::panic" →
        encode_panic_cause bt = PanicCause.generic) := by
  refine ⟨?_, ?_, rfl, ?_⟩
  · intro rest
    rfl
  · intro t h
    simp [encode_panic_cause, h]
  · intro bt h
    unfold encode_panic_cause
    rcases hm : (bt.take 3).filterMap id with _ | ⟨hd, tl⟩
    · rfl
    · rw [hm] at h
      simp only [List.head?, ne_eq, Option.some.injEq] at h
      simp [hm, h]

/-- Witness for C10: an unrecognized ancestry and a concrete
assert-without-debug ancestry. -/
theorem C10_witness :
    encode_panic_cause [some "core::fmt", some "std::vec"]
      = PanicCause.generic ∧
    encode_panic_cause [some "std::panic", some "std::assert",
        some "std::other"] = PanicCause.assert :=
  ⟨C10_panic_cause_classification.2.2.2 [some "core::fmt", some "std::vec"]
      (by decide),
   C10_panic_cause_classification.2.1 "std::other" (by decide)⟩

/-! ## Idempotence of the purifier (claim C4) -/

/-- `translate_type` is idempotent: purified types are left unchanged. -/
theorem translate_type_idem (t : VirType) :
    translate_type (translate_type t) = translate_type t := by
  cases t <;> rfl

/-- The appended "fuel" argument is already pure. -/
theorem purify_nat_argument (S : PState) :
    purify S (.localVar encode_nat_argument 0)
      = some (.localVar encode_nat_argument 0) := rfl

/-- The singleton list holding the "fuel" argument is already pure. -/
theorem purifyList_nat_single (S : PState) :
    purifyList S (.cons (.localVar encode_nat_argument 0) .nil)
      = some (.cons (.localVar encode_nat_argument 0) .nil) := rfl

/-- `purifyList` distributes over `ExprList.append` (strong induction on the
size of the first list, since the mutual inductive has no single-motive
induction principle). -/
theorem purifyList_append_some :
    ∀ (n : Nat) (S : PState) (l1 : ExprList), sizeOf l1 < n →
      ∀ (l2 l1' l2' : ExprList),
        purifyList S l1 = some l1' → purifyList S l2 = some l2' →
        purifyList S (l1.append l2) = some (l1'.append l2') := by
  intro n
  induction n with
  | zero => intro S l1 h; exact absurd h (Nat.not_lt_zero _)
  | succ n ih =>
    intro S l1 h l2 l1' l2' h1 h2
    cases l1 with
    | nil =>
      simp only [purifyList, Option.some.injEq] at h1
      subst h1
      simpa [ExprList.append] using h2
    | cons a as =>
      have has : sizeOf as < n := by simp at h; omega
      simp only [purifyList] at h1
      rcases hpa : purify S a with _ | a2
      · rw [hpa] at h1; simp at h1
      · rcases hpas : purifyList S as with _ | as2
        · rw [hpa, hpas] at h1; simp at h1
        · rw [hpa, hpas] at h1
          simp only [Option.some.injEq] at h1
          subst h1
          have hrest := ih S as has l2 as2 l2' hpas h2
          simp [ExprList.append, purifyList, hpa, hrest]

/-- Core of the idempotence argument, by strong induction on the size of the
input: any output of `purify` (resp. `purifyList`) is a fixed point of
`purify` (resp. `purifyList`), provided the configured self-reference is one
(the spec supplies the enclosing pure function's own purified
self-reference). -/
theorem purify_idem_core (S : PState)
    (hS : purify S S.selfFunction = some S.selfFunction) :
    ∀ n : Nat,
      (∀ e : Expr, sizeOf e < n → ∀ e', purify S e = some e' →
        purify S e' = some e') ∧
      (∀ l : ExprList, sizeOf l < n → ∀ l', purifyList S l = some l' →
        purifyList S l' = some l') := by
  intro n
  induction n with
  | zero =>
    exact ⟨fun e he => absurd he (Nat.not_lt_zero _),
           fun l hl => absurd hl (Nat.not_lt_zero _)⟩
  | succ n ih =>
    obtain ⟨ihE, ihL⟩ := ih
    constructor
    · intro e he e' hp
      cases e with
      | const c p =>
        simp only [purify, Option.some.injEq] at hp
        subst hp
        rfl
      | localVar v p =>
        simp only [purify] at hp
        by_cases hv : v.name = "__result"
        · rw [if_pos hv] at hp
          injection hp with hp
          subst hp
          exact hS
        · rw [if_neg hv] at hp
          injection hp with hp
          subst hp
          simp only [purify]
          rw [if_neg hv, translate_type_idem]
      | field receiver f p =>
        have hrec : sizeOf receiver < n := by simp at he; omega
        simp only [purify] at hp
        cases hgt : receiver.getType with
        | typedRef receiverName =>
          rw [hgt] at hp
          simp only at hp
          rcases hpr : purify S receiver with _ | inner
          · rw [hpr] at hp; simp at hp
          · rw [hpr] at hp
            simp only at hp
            have hinner : purify S inner = some inner := ihE receiver hrec inner hpr
            by_cases h1 : f.name = "val_bool"
            · rw [if_pos h1] at hp
              injection hp with hp
              subst hp
              exact hinner
            · rw [if_neg h1] at hp
              by_cases h2 : f.name = "val_int"
              · rw [if_pos h2] at hp
                injection hp with hp
                subst hp
                exact hinner
              · rw [if_neg h2] at hp
                by_cases h3 : f.name = "val_ref"
                · rw [if_pos h3] at hp
                  injection hp with hp
                  subst hp
                  exact hinner
                · rw [if_neg h3] at hp
                  by_cases h4 : f.name = "discriminant"
                  · rw [if_pos h4] at hp
                    injection hp with hp
                    subst hp
                    simp [purify, purifyList, hinner]
                  · rw [if_neg h4] at hp
                    injection hp with hp
                    subst hp
                    simp [purify, purifyList, hinner]
        | int => rw [hgt] at hp; simp at hp
        | bool => rw [hgt] at hp; simp at hp
        | domain nm => rw [hgt] at hp; simp at hp
      | addrOf base t p =>
        have hb : sizeOf base < n := by simp at he; omega
        simp only [purify] at hp
        rcases hpb : purify S base with _ | b2
        · rw [hpb] at hp; simp at hp
        · rw [hpb] at hp
          simp only [Option.some.injEq] at hp
          subst hp
          have hb2 := ihE base hb b2 hpb
          simp [purify, hb2]
      | variant base f p =>
        have hb : sizeOf base < n := by simp at he; omega
        simp only [purify] at hp
        exact ihE base hb e' hp
      | unfolding nm args body perm vi p =>
        have hb : sizeOf body < n := by simp at he; omega
        simp only [purify] at hp
        exact ihE body hb e' hp
      | funcApp nm args fa rt p =>
        have hargs : sizeOf args < n := by simp at he; omega
        simp only [purify] at hp
        by_cases h1 : nm = "builtin$unreach_int"
        · rw [if_pos h1] at hp
          rcases hpl : purifyList S args with _ | args2
          · rw [hpl] at hp; simp at hp
          · rw [hpl] at hp
            simp only [Option.some.injEq] at hp
            subst hp
            have h2 := ihL args hargs args2 hpl
            simp [purify, h1, h2]
        · rw [if_neg h1] at hp
          by_cases h2 : nm = "snap$"
          · rw [if_pos h2] at hp
            rcases hpl : purifyList S args with _ | args2
            · rw [hpl] at hp; simp at hp
            · rw [hpl] at hp
              rcases args2 with _ | ⟨a2, _ | ⟨c2, cs2⟩⟩
              · simp at hp
              · have hp2 : some a2 = some e' := hp
                injection hp2 with hp2
                subst hp2
                have hL2 := ihL args hargs _ hpl
                simp only [purifyList] at hL2
                rcases hpa2 : purify S a2 with _ | x
                · rw [hpa2] at hL2; simp at hL2
                · rw [hpa2] at hL2
                  simp at hL2
                  simp_all
              · simp at hp
          · rw [if_neg h2] at hp
            rcases hpl : purifyList S args with _ | args2
            · rw [hpl] at hp; simp at hp
            · rw [hpl] at hp
              simp only [Option.some.injEq] at hp
              subst hp
              have hargs2 := ihL args hargs args2 hpl
              have happ := purifyList_append_some (sizeOf args2 + 1) S args2
                (Nat.lt_succ_self _) _ _ _ hargs2 (purifyList_nat_single S)
              simp [purify, h1, h2, happ]
      | domainFuncApp func args p =>
        have hargs : sizeOf args < n := by simp at he; omega
        simp only [purify] at hp
        rcases hpl : purifyList S args with _ | args2
        · rw [hpl] at hp; simp at hp
        · rw [hpl] at hp
          simp only [Option.some.injEq] at hp
          subst hp
          have h2 := ihL args hargs args2 hpl
          simp [purify, h2]
      | predicateAccessPredicate nm arg perm p =>
        simp only [purify, Option.some.injEq] at hp
        subst hp
        rfl
      | fieldAccessPredicate base perm p =>
        simp only [purify, Option.some.injEq] at hp
        subst hp
        rfl
      | binOp k l r p =>
        have hl : sizeOf l < n := by simp at he; omega
        have hr : sizeOf r < n := by simp at he; omega
        simp only [purify] at hp
        rcases hpl : purify S l with _ | l2
        · rw [hpl] at hp; simp at hp
        · rcases hpr : purify S r with _ | r2
          · rw [hpl, hpr] at hp; simp at hp
          · rw [hpl, hpr] at hp
            simp only [Option.some.injEq] at hp
            subst hp
            have h1 := ihE l hl l2 hpl
            have h2 := ihE r hr r2 hpr
            simp [purify, h1, h2]
    · intro l hl l' hp
      cases l with
      | nil =>
        simp only [purifyList, Option.some.injEq] at hp
        subst hp
        rfl
      | cons a as =>
        have ha : sizeOf a < n := by simp at hl; omega
        have has : sizeOf as < n := by simp at hl; omega
        simp only [purifyList] at hp
        rcases hpa : purify S a with _ | a2
        · rw [hpa] at hp; simp at hp
        · rcases hpas : purifyList S as with _ | as2
          · rw [hpa, hpas] at hp; simp at hp
          · rw [hpa, hpas] at hp
            simp only [Option.some.injEq] at hp
            subst hp
            have h1 := ihE a ha a2 hpa
            have h2 := ihL as has as2 hpas
            simp [purifyList, h1, h2]

/-- Claim C4: purification is idempotent -- for an arbitrary expression `e`,
`purify (purify e) = purify e` (every successful output of the purifier is a
fixed point, i.e. purifying an already-pure expression is a no-op), provided
the purifier's configured self-reference (the replacement for the `__result`
placeholder, per the spec the enclosing pure function's own purified
self-reference) is itself a fixed point. -/
theorem C4_purify_idempotent (S : PState)
    (hS : purify S S.selfFunction = some S.selfFunction)
    (e e' : Expr) (hp : purify S e = some e') : purify S e' = some e' :=
  (purify_idem_core S hS (sizeOf e + 1)).1 e (Nat.lt_succ_self _) e' hp

/-- Witness for C4: a purifier whose self-reference is the pure constant `0`,
applied to an `unfolding` wrapper around a resource-permission predicate;
purification yields the constant `true`, which repurifies to itself. -/
theorem C4_witness :
    purify ⟨Expr.const (Const.int 0) 0⟩ (Expr.const (Const.bool true) 0)
      = some (Expr.const (Const.bool true) 0) :=
  C4_purify_idempotent ⟨Expr.const (Const.int 0) 0⟩ rfl
    (Expr.unfolding "P" .nil
      (Expr.predicateAccessPredicate "Q" (Expr.localVar ⟨"y", .typedRef "U"⟩ 1)
        .read 2) .write none 3)
    (Expr.const (Const.bool true) 0) rfl

end Prusti
